import Mathlib

/-!
Shallow embedding of geomstats/geometry/discrete_surfaces.py
(classes DiscreteSurfaces and ElasticMetric) over exact real arithmetic.

A surface point (and a tangent vector) is a map from vertex indices to
3D coordinates.  The mesh topology is a list of faces, each face a triple
of vertex indices.  Machine floats are modelled by real numbers; the
float literal 1e-6 is modelled by the rational 1/1000000.
-/

open Matrix

noncomputable section

/-- A 3D coordinate vector (one row of a point array). -/
structure V3 where
  x : ℝ
  y : ℝ
  z : ℝ

namespace V3

instance : Zero V3 := ⟨⟨0, 0, 0⟩⟩

instance : Add V3 := ⟨fun u v => ⟨u.x + v.x, u.y + v.y, u.z + v.z⟩⟩

instance : Sub V3 := ⟨fun u v => ⟨u.x - v.x, u.y - v.y, u.z - v.z⟩⟩

instance : SMul ℝ V3 := ⟨fun c v => ⟨c * v.x, c * v.y, c * v.z⟩⟩

@[simp] theorem zero_x : (0 : V3).x = 0 := rfl
@[simp] theorem zero_y : (0 : V3).y = 0 := rfl
@[simp] theorem zero_z : (0 : V3).z = 0 := rfl

@[simp] theorem add_x (u v : V3) : (u + v).x = u.x + v.x := rfl
@[simp] theorem add_y (u v : V3) : (u + v).y = u.y + v.y := rfl
@[simp] theorem add_z (u v : V3) : (u + v).z = u.z + v.z := rfl

@[simp] theorem sub_x (u v : V3) : (u - v).x = u.x - v.x := rfl
@[simp] theorem sub_y (u v : V3) : (u - v).y = u.y - v.y := rfl
@[simp] theorem sub_z (u v : V3) : (u - v).z = u.z - v.z := rfl

@[simp] theorem smul_x (c : ℝ) (v : V3) : (c • v).x = c * v.x := rfl
@[simp] theorem smul_y (c : ℝ) (v : V3) : (c • v).y = c * v.y := rfl
@[simp] theorem smul_z (c : ℝ) (v : V3) : (c • v).z = c * v.z := rfl

theorem ext_comp {u v : V3} (hx : u.x = v.x) (hy : u.y = v.y)
    (hz : u.z = v.z) : u = v := by
  cases u; cases v; cases hx; cases hy; cases hz; rfl

end V3

/-- Euclidean dot product of two 3D vectors (gs.einsum of two rows). -/
def dot3 (u v : V3) : ℝ := u.x * v.x + u.y * v.y + u.z * v.z

/-- Cross product of two 3D vectors (gs.cross). -/
def cross3 (u v : V3) : V3 :=
  ⟨u.y * v.z - u.z * v.y, u.z * v.x - u.x * v.z, u.x * v.y - u.y * v.x⟩

/-- Euclidean norm of a 3D vector (gs.linalg.norm of a row). -/
def norm3 (u : V3) : ℝ := Real.sqrt (dot3 u u)

theorem dot3_comm (u v : V3) : dot3 u v = dot3 v u := by
  simp only [dot3]; ring

theorem dot3_self_nonneg (u : V3) : 0 ≤ dot3 u u := by
  simp only [dot3]
  nlinarith [sq_nonneg u.x, sq_nonneg u.y, sq_nonneg u.z]

theorem dot3_smul_smul (c : ℝ) (u v : V3) :
    dot3 (c • u) (c • v) = c ^ 2 * dot3 u v := by
  simp only [dot3, V3.smul_x, V3.smul_y, V3.smul_z]; ring

/-- Lagrange identity for the cross product. -/
theorem dot3_cross_self (u v : V3) :
    dot3 (cross3 u v) (cross3 u v) = dot3 u u * dot3 v v - dot3 u v * dot3 u v := by
  simp only [dot3, cross3]; ring

/-- A mesh face: the triple of vertex indices of one row of the faces array. -/
abbrev Face (n : ℕ) := Fin n × Fin n × Fin n

/-- The length of the edge between vertices 1 and 2 of a face
(len_edge_12 in _triangle_areas and laplacian). -/
def len12 {n : ℕ} (p : Fin n → V3) (f : Face n) : ℝ :=
  norm3 (p f.2.1 - p f.2.2)

/-- The length of the edge between vertices 0 and 2 of a face. -/
def len02 {n : ℕ} (p : Fin n → V3) (f : Face n) : ℝ :=
  norm3 (p f.1 - p f.2.2)

/-- The length of the edge between vertices 0 and 1 of a face. -/
def len01 {n : ℕ} (p : Fin n → V3) (f : Face n) : ℝ :=
  norm3 (p f.1 - p f.2.1)

/-- The half perimeter of a face (half_perimeter in _triangle_areas). -/
def halfPerimeter {n : ℕ} (p : Fin n → V3) (f : Face n) : ℝ :=
  0.5 * (len12 p f + len02 p f + len01 p f)

/-- The radicand of Heron's formula, before the 1e-6 clip. -/
def heronRadicand {n : ℕ} (p : Fin n → V3) (f : Face n) : ℝ :=
  halfPerimeter p f * (halfPerimeter p f - len12 p f)
    * (halfPerimeter p f - len02 p f) * (halfPerimeter p f - len01 p f)

/-- Per-face triangle area of DiscreteSurfaces._triangle_areas:
the square root of the Heron radicand clipped below at 1e-6.
The laplacian method recomputes this same quantity for its area divisor. -/
def triangleArea {n : ℕ} (p : Fin n → V3) (f : Face n) : ℝ :=
  Real.sqrt (max (heronRadicand p f) (1 / 1000000))

/-- Components of a V3 as a row of a matrix. -/
def vComp (u : V3) : Fin 3 → ℝ := ![u.x, u.y, u.z]

/-- DiscreteSurfaces.surface_one_forms at one face: the 2x3 matrix whose
rows are the edge vectors (vertex 1 - vertex 0) and (vertex 2 - vertex 0). -/
def oneForms {n : ℕ} (p : Fin n → V3) (f : Face n) : Matrix (Fin 2) (Fin 3) ℝ :=
  Matrix.of ![vComp (p f.2.1 - p f.1), vComp (p f.2.2 - p f.1)]

/-- DiscreteSurfaces.surface_metric_matrices at one face: the one-form times
its own transpose (a 2x2 Gram matrix). -/
def gram {n : ℕ} (p : Fin n → V3) (f : Face n) : Matrix (Fin 2) (Fin 2) ℝ :=
  oneForms p f * (oneForms p f)ᵀ

/-- DiscreteSurfaces.face_areas at one face: sqrt of det of the metric matrix. -/
def faceArea {n : ℕ} (p : Fin n → V3) (f : Face n) : ℝ :=
  Real.sqrt (gram p f).det

/-- DiscreteSurfaces.normals at one face: half the cross product of the
two edge vectors. -/
def normalsF {n : ℕ} (p : Fin n → V3) (f : Face n) : V3 :=
  (0.5 : ℝ) • cross3 (p f.2.1 - p f.1) (p f.2.2 - p f.1)

theorem sum_vComp_mul (u v : V3) :
    (Finset.univ.sum fun j => vComp u j * vComp v j) = dot3 u v := by
  simp [Fin.sum_univ_three, vComp, dot3]

theorem gram_apply {n : ℕ} (p : Fin n → V3) (f : Face n) (i k : Fin 2) :
    gram p f i k
      = dot3 (![p f.2.1 - p f.1, p f.2.2 - p f.1] i)
          (![p f.2.1 - p f.1, p f.2.2 - p f.1] k) := by
  simp only [gram, Matrix.mul_apply, Matrix.transpose_apply]
  fin_cases i <;> fin_cases k <;> simp [oneForms, sum_vComp_mul]

theorem gram_det {n : ℕ} (p : Fin n → V3) (f : Face n) :
    (gram p f).det
      = dot3 (p f.2.1 - p f.1) (p f.2.1 - p f.1)
          * dot3 (p f.2.2 - p f.1) (p f.2.2 - p f.1)
        - dot3 (p f.2.1 - p f.1) (p f.2.2 - p f.1)
          * dot3 (p f.2.1 - p f.1) (p f.2.2 - p f.1) := by
  rw [Matrix.det_fin_two, gram_apply, gram_apply, gram_apply, gram_apply]
  simp [dot3_comm (p f.2.2 - p f.1) (p f.2.1 - p f.1)]

/-- Purely algebraic form of Heron's formula. -/
theorem heron_core (a b c : ℝ) :
    (0.5 * (a + b + c)) * (0.5 * (a + b + c) - a) * (0.5 * (a + b + c) - b)
        * (0.5 * (a + b + c) - c)
      = (2 * (a ^ 2 * b ^ 2 + b ^ 2 * c ^ 2 + a ^ 2 * c ^ 2)
          - (a ^ 2 * a ^ 2 + b ^ 2 * b ^ 2 + c ^ 2 * c ^ 2)) / 16 := by
  ring

/-- The determinant of the per-face metric matrix is exactly four times
the Heron radicand: face_areas computes twice the Heron area. -/
theorem gram_det_eq_four_radicand {n : ℕ} (p : Fin n → V3) (f : Face n) :
    (gram p f).det = 4 * heronRadicand p f := by
  have h12 : len12 p f ^ 2 = dot3 (p f.2.1 - p f.2.2) (p f.2.1 - p f.2.2) :=
    Real.sq_sqrt (dot3_self_nonneg _)
  have h02 : len02 p f ^ 2 = dot3 (p f.1 - p f.2.2) (p f.1 - p f.2.2) :=
    Real.sq_sqrt (dot3_self_nonneg _)
  have h01 : len01 p f ^ 2 = dot3 (p f.1 - p f.2.1) (p f.1 - p f.2.1) :=
    Real.sq_sqrt (dot3_self_nonneg _)
  rw [gram_det]
  simp only [heronRadicand, halfPerimeter]
  rw [heron_core (len12 p f) (len02 p f) (len01 p f), h12, h02, h01]
  simp only [dot3, V3.sub_x, V3.sub_y, V3.sub_z]
  ring

theorem heronRadicand_nonneg {n : ℕ} (p : Fin n → V3) (f : Face n) :
    0 ≤ heronRadicand p f := by
  have h := gram_det_eq_four_radicand p f
  have hd : 0 ≤ (gram p f).det := by
    rw [gram_det]
    have hl := dot3_cross_self (p f.2.1 - p f.1) (p f.2.2 - p f.1)
    have hn := dot3_self_nonneg (cross3 (p f.2.1 - p f.1) (p f.2.2 - p f.1))
    linarith
  linarith

/-- Indexed scatter-add accumulation of real values (gs.scatter_add):
contributions at duplicate indices sum into the accumulator. -/
def scatterAddR {n : ℕ} (init : Fin n → ℝ) (l : List (Fin n × ℝ)) : Fin n → ℝ :=
  l.foldl (fun acc pr => Function.update acc pr.1 (acc pr.1 + pr.2)) init

/-- Indexed scatter-add accumulation of 3D values: the laplacian scatters
each coordinate dimension independently, which is the same as scattering
whole rows. -/
def scatterAddV {n : ℕ} (init : Fin n → V3) (l : List (Fin n × V3)) : Fin n → V3 :=
  l.foldl (fun acc pr => Function.update acc pr.1 (acc pr.1 + pr.2)) init

/-- gs.flatten(self.faces): the face-index array flattened in row-major
order. -/
def flattenFaces {n : ℕ} (faces : List (Face n)) : List (Fin n) :=
  faces.flatMap fun f => [f.1, f.2.1, f.2.2]

/-- DiscreteSurfaces.vertex_areas: the per-face (clipped) triangle areas,
tiled three times, are scatter-added at the flattened face indices and the
accumulator is multiplied by 2/3. -/
def vertexAreas {n : ℕ} (faces : List (Face n)) (p : Fin n → V3) : Fin n → ℝ :=
  fun v =>
    2 * scatterAddR (fun _ => 0)
        ((flattenFaces faces).zip
          (faces.map (triangleArea p) ++ faces.map (triangleArea p)
            ++ faces.map (triangleArea p))) v / 3

/-- Cotangent weight of a face at the corner opposite edge 12, after the
division by 2 performed by laplacian (cot_12 with cot /= 2.0). -/
def cot12 {n : ℕ} (p : Fin n → V3) (f : Face n) : ℝ :=
  (len02 p f * len02 p f + len01 p f * len01 p f - len12 p f * len12 p f)
    / triangleArea p f / 2

/-- Cotangent weight of a face at the corner opposite edge 02. -/
def cot02 {n : ℕ} (p : Fin n → V3) (f : Face n) : ℝ :=
  (len12 p f * len12 p f + len01 p f * len01 p f - len02 p f * len02 p f)
    / triangleArea p f / 2

/-- Cotangent weight of a face at the corner opposite edge 01. -/
def cot01 {n : ℕ} (p : Fin n → V3) (f : Face n) : ℝ :=
  (len12 p f * len12 p f + len02 p f * len02 p f - len01 p f * len01 p f)
    / triangleArea p f / 2

/-- The weighted-edge contribution list of the laplacian closure: for each
face, the three cotangent weights times the differences of the tangent
field at the vertex pairs given by the cyclic index rows 120 and 201,
scattered at the 201 indices. -/
def lapPairs {n : ℕ} (faces : List (Face n)) (p : Fin n → V3)
    (t : Fin n → V3) : List (Fin n × V3) :=
  faces.flatMap fun f =>
    [ (f.2.2, cot12 p f • (t f.2.1 - t f.2.2)),
      (f.1, cot02 p f • (t f.2.2 - t f.1)),
      (f.2.1, cot01 p f • (t f.1 - t f.2.1)) ]

/-- The _laplacian closure returned by DiscreteSurfaces.laplacian, applied
to one tangent field: scatter-add of the weighted edge differences into a
zero-initialized output field. -/
def laplacianApply {n : ℕ} (faces : List (Face n)) (p : Fin n → V3)
    (t : Fin n → V3) : Fin n → V3 :=
  scatterAddV (fun _ => 0) (lapPairs faces p t)

/-- The six hyperparameters of ElasticMetric. -/
structure Weights where
  a0 : ℝ
  a1 : ℝ
  b1 : ℝ
  c1 : ℝ
  d1 : ℝ
  a2 : ℝ

/-- The a0 (mass) sum of ElasticMetric.inner_product:
gs.sum(v_areas * einsum(h, k)). -/
def termA0 {n : ℕ} (faces : List (Face n)) (h k q : Fin n → V3) : ℝ :=
  Finset.univ.sum fun v => vertexAreas faces q v * dot3 (h v) (k v)

/-- The a2 (bending) sum of ElasticMetric.inner_product:
gs.sum(einsum(laplacian h, laplacian k) / v_areas). -/
def termA2 {n : ℕ} (faces : List (Face n)) (h k q : Fin n → V3) : ℝ :=
  Finset.univ.sum fun v =>
    dot3 (laplacianApply faces q h v) (laplacianApply faces q k v)
      / vertexAreas faces q v

/-- The c1 (normal) sum of ElasticMetric.inner_product:
gs.sum(einsum(dn1, dn2) * areas), with areas = sqrt(det(surface_metrics)). -/
def termC1 {n : ℕ} (faces : List (Face n)) (h k q : Fin n → V3) : ℝ :=
  (faces.map fun f =>
    dot3 (normalsF (q + h) f - normalsF q f) (normalsF (q + k) f - normalsF q f)
      * faceArea q f).sum

/-- Exact 2x2 matrix inverse (gs.linalg.inv on the surface metric):
adjugate divided by the determinant. -/
def inv2 (m : Matrix (Fin 2) (Fin 2) ℝ) : Matrix (Fin 2) (Fin 2) ℝ :=
  (1 / m.det) • Matrix.of ![![m 1 1, -m 0 1], ![-m 1 0, m 0 0]]

/-- The correction matrix xi1_0 (resp. xi2_0) of the d1 term, built from
the base one-form al, the inverse metric gi, and the perturbed one-form
alp: matmul(matmul(al_t, gi), matmul(xi_t, al_t) - matmul(al, xi)) with
xi = alp_t - al_t. -/
def xiZero (al : Matrix (Fin 2) (Fin 3) ℝ) (gi : Matrix (Fin 2) (Fin 2) ℝ)
    (alp : Matrix (Fin 2) (Fin 3) ℝ) : Matrix (Fin 3) (Fin 2) ℝ :=
  (alᵀ * gi) * (((alpᵀ - alᵀ)ᵀ * alᵀ) - (al * (alpᵀ - alᵀ)))

/-- The per-face trace of the d1 term:
einsum(bii->b, matmul(xi1_0, matmul(ginv, transpose(xi2_0)))). -/
def d1Face {n : ℕ} (q h k : Fin n → V3) (f : Face n) : ℝ :=
  Matrix.trace
    (xiZero (oneForms q f) (inv2 (gram q f)) (oneForms (q + h) f)
      * (inv2 (gram q f) * (xiZero (oneForms q f) (inv2 (gram q f)) (oneForms (q + k) f))ᵀ))

/-- The d1 (connection/torsion) sum of ElasticMetric.inner_product. -/
def termD1 {n : ℕ} (faces : List (Face n)) (h k q : Fin n → V3) : ℝ :=
  (faces.map fun f => d1Face q h k f * faceArea q f).sum

/-- dg1 (resp. dg2): the perturbed metric matrix minus the base metric
matrix, per face. -/
def dgFace {n : ℕ} (q h : Fin n → V3) (f : Face n) : Matrix (Fin 2) (Fin 2) ℝ :=
  oneForms (q + h) f * (oneForms (q + h) f)ᵀ - gram q f

/-- ginvdg1 (resp. ginvdg2): the inverse base metric times dg1. -/
def ginvdg {n : ℕ} (q h : Fin n → V3) (f : Face n) : Matrix (Fin 2) (Fin 2) ℝ :=
  inv2 (gram q f) * dgFace q h f

/-- The a1 (metric-change quadratic) sum of ElasticMetric.inner_product. -/
def termA1 {n : ℕ} (faces : List (Face n)) (h k q : Fin n → V3) : ℝ :=
  (faces.map fun f =>
    Matrix.trace (ginvdg q h f * ginvdg q k f) * faceArea q f).sum

/-- The b1 (metric-trace product) sum of ElasticMetric.inner_product. -/
def termB1 {n : ℕ} (faces : List (Face n)) (h k q : Fin n → V3) : ℝ :=
  (faces.map fun f =>
    Matrix.trace (ginvdg q h f) * Matrix.trace (ginvdg q k f) * faceArea q f).sum

/-- ElasticMetric.inner_product: the guarded accumulation of the six terms
exactly as in the source, including the duplicated b1 test (and missing d1
test) in the guard of the first-order block. -/
def innerProduct {n : ℕ} (faces : List (Face n)) (W : Weights)
    (h k q : Fin n → V3) : ℝ :=
  (if W.a0 > 0 ∨ W.a2 > 0 then
      (if W.a0 > 0 then W.a0 * termA0 faces h k q else 0)
      + (if W.a2 > 0 then W.a2 * termA2 faces h k q else 0)
    else 0)
  + (if W.a1 > 0 ∨ W.b1 > 0 ∨ W.c1 > 0 ∨ W.b1 > 0 then
      (if W.c1 > 0 then W.c1 * termC1 faces h k q else 0)
      + (if W.d1 > 0 ∨ W.b1 > 0 ∨ W.a1 > 0 then
          (if W.d1 > 0 then W.d1 * termD1 faces h k q else 0)
          + (if W.b1 > 0 ∨ W.a1 > 0 then
              W.a1 * termA1 faces h k q + W.b1 * termB1 faces h k q
            else 0)
        else 0)
    else 0)

theorem gram_transpose {n : ℕ} (p : Fin n → V3) (f : Face n) :
    (gram p f)ᵀ = gram p f := by
  unfold gram
  rw [Matrix.transpose_mul, Matrix.transpose_transpose]

theorem inv2_symm (m : Matrix (Fin 2) (Fin 2) ℝ) (hm : mᵀ = m) :
    (inv2 m)ᵀ = inv2 m := by
  have h01 : m 1 0 = m 0 1 := by
    have h := congrFun (congrFun hm 0) 1
    simpa [Matrix.transpose_apply] using h
  ext i j
  fin_cases i <;> fin_cases j <;>
    simp [inv2, Matrix.transpose_apply, h01]

theorem trace_quad_symm (G : Matrix (Fin 2) (Fin 2) ℝ) (hG : Gᵀ = G)
    (X1 X2 : Matrix (Fin 3) (Fin 2) ℝ) :
    Matrix.trace (X1 * (G * X2ᵀ)) = Matrix.trace (X2 * (G * X1ᵀ)) := by
  have h : (X2 * (G * X1ᵀ))ᵀ = X1 * (G * X2ᵀ) := by
    rw [Matrix.transpose_mul, Matrix.transpose_mul, Matrix.transpose_transpose,
      hG, Matrix.mul_assoc]
  rw [← Matrix.trace_transpose (X2 * (G * X1ᵀ)), h]

theorem d1Face_comm {n : ℕ} (q h k : Fin n → V3) (f : Face n) :
    d1Face q h k f = d1Face q k h f := by
  unfold d1Face
  exact trace_quad_symm (inv2 (gram q f)) (inv2_symm _ (gram_transpose q f)) _ _

theorem termA0_comm {n : ℕ} (faces : List (Face n)) (h k q : Fin n → V3) :
    termA0 faces h k q = termA0 faces k h q := by
  unfold termA0
  exact Finset.sum_congr rfl fun v _ => by rw [dot3_comm]

theorem termA2_comm {n : ℕ} (faces : List (Face n)) (h k q : Fin n → V3) :
    termA2 faces h k q = termA2 faces k h q := by
  unfold termA2
  exact Finset.sum_congr rfl fun v _ => by rw [dot3_comm]

theorem termC1_comm {n : ℕ} (faces : List (Face n)) (h k q : Fin n → V3) :
    termC1 faces h k q = termC1 faces k h q := by
  unfold termC1
  have he : (fun f => dot3 (normalsF (q + h) f - normalsF q f)
        (normalsF (q + k) f - normalsF q f) * faceArea q f)
      = fun f => dot3 (normalsF (q + k) f - normalsF q f)
        (normalsF (q + h) f - normalsF q f) * faceArea q f := by
    funext f; rw [dot3_comm]
  rw [he]

theorem termD1_comm {n : ℕ} (faces : List (Face n)) (h k q : Fin n → V3) :
    termD1 faces h k q = termD1 faces k h q := by
  unfold termD1
  have he : (fun f => d1Face q h k f * faceArea q f)
      = fun f => d1Face q k h f * faceArea q f := by
    funext f; rw [d1Face_comm]
  rw [he]

theorem termA1_comm {n : ℕ} (faces : List (Face n)) (h k q : Fin n → V3) :
    termA1 faces h k q = termA1 faces k h q := by
  unfold termA1
  have he : (fun f => Matrix.trace (ginvdg q h f * ginvdg q k f) * faceArea q f)
      = fun f => Matrix.trace (ginvdg q k f * ginvdg q h f) * faceArea q f := by
    funext f; rw [Matrix.trace_mul_comm]
  rw [he]

theorem termB1_comm {n : ℕ} (faces : List (Face n)) (h k q : Fin n → V3) :
    termB1 faces h k q = termB1 faces k h q := by
  unfold termB1
  have he : (fun f => Matrix.trace (ginvdg q h f) * Matrix.trace (ginvdg q k f)
        * faceArea q f)
      = fun f => Matrix.trace (ginvdg q k f) * Matrix.trace (ginvdg q h f)
        * faceArea q f := by
    funext f; ring_nf
  rw [he]

/-- C5: for every pair of tangent vectors h, k, every base point q, and
every configuration of the six weights, inner_product(h, k, q) equals
inner_product(k, h, q). -/
theorem inner_product_symm {n : ℕ} (faces : List (Face n)) (W : Weights)
    (h k q : Fin n → V3) :
    innerProduct faces W h k q = innerProduct faces W k h q := by
  unfold innerProduct
  rw [termA0_comm, termA2_comm, termC1_comm, termD1_comm, termA1_comm,
    termB1_comm]

theorem sub_self3 (u : V3) : u - u = 0 := by
  apply V3.ext_comp <;> simp

theorem add_zero3 (u : V3) : u + 0 = u := by
  apply V3.ext_comp <;> simp

theorem smul_zero3 (c : ℝ) : c • (0 : V3) = 0 := by
  apply V3.ext_comp <;> simp

theorem scatterAddV_zero {n : ℕ} (init : Fin n → V3) (l : List (Fin n × V3))
    (hl : ∀ pr ∈ l, pr.2 = 0) : scatterAddV init l = init := by
  induction l generalizing init with
  | nil => rfl
  | cons a t ih =>
    have ha : a.2 = 0 := hl a (List.mem_cons_self a t)
    show scatterAddV (Function.update init a.1 (init a.1 + a.2)) t = init
    rw [ha, add_zero3, Function.update_eq_self]
    exact ih init fun pr hpr => hl pr (List.mem_cons_of_mem a hpr)

/-- C9: for every base point and every constant tangent field, the
laplacian operator maps that field to the exactly-zero field: every
weighted-edge contribution vanishes, so the scatter-add output stays at
its zero initialization. -/
theorem laplacian_const_eq_zero {n : ℕ} (faces : List (Face n))
    (q : Fin n → V3) (v : V3) :
    laplacianApply faces q (fun _ => v) = fun _ => 0 := by
  unfold laplacianApply
  apply scatterAddV_zero
  intro pr hpr
  rcases List.mem_flatMap.1 hpr with ⟨f, _, hf⟩
  simp only [List.mem_cons, List.mem_singleton] at hf
  rcases hf with h1 | h1 | h1 | h1 <;> first
    | (rw [h1]; simp [sub_self3, smul_zero3])
    | exact absurd h1 (by simp)

theorem sqrt_millionth : Real.sqrt (1 / 1000000) = 1 / 1000 := by
  rw [show (1 / 1000000 : ℝ) = (1 / 1000) ^ 2 by norm_num,
    Real.sqrt_sq (by norm_num)]

/-- C2 (amended): the area divisor used by the cotangent weights in
laplacian is floored: it is the square root of the Heron radicand clipped
at 1e-6, hence at least 1/1000 and in particular never zero, even for a
truly degenerate face. -/
theorem laplacian_area_floored {n : ℕ} (p : Fin n → V3) (f : Face n) :
    1 / 1000 ≤ triangleArea p f ∧ triangleArea p f ≠ 0 := by
  have h2 : 1 / 1000 ≤ triangleArea p f := by
    unfold triangleArea
    have h1 : (1 / 1000000 : ℝ) ≤ max (heronRadicand p f) (1 / 1000000) :=
      le_max_right _ _
    have h3 := Real.sqrt_le_sqrt h1
    rwa [sqrt_millionth] at h3
  exact ⟨h2, fun h0 => by rw [h0] at h2; linarith⟩

/-- A degenerate (zero-area) triangle: three collinear vertices. -/
def pDeg : Fin 3 → V3 := ![⟨0, 0, 0⟩, ⟨1, 0, 0⟩, ⟨2, 0, 0⟩]

/-- The single face (0, 1, 2) of the one-triangle test meshes. -/
def f012 : Face 3 := (0, 1, 2)

theorem len12_pDeg : len12 pDeg f012 = 1 := by
  have hd : dot3 (pDeg f012.2.1 - pDeg f012.2.2) (pDeg f012.2.1 - pDeg f012.2.2)
      = 1 := by
    norm_num [pDeg, f012, dot3, Matrix.cons_val_one, Matrix.cons_val_two,
      Matrix.head_cons, Matrix.tail_cons]
  unfold len12 norm3
  rw [hd, Real.sqrt_one]

theorem len02_pDeg : len02 pDeg f012 = 2 := by
  have hd : dot3 (pDeg f012.1 - pDeg f012.2.2) (pDeg f012.1 - pDeg f012.2.2)
      = 4 := by
    norm_num [pDeg, f012, dot3, Matrix.cons_val_zero, Matrix.cons_val_two,
      Matrix.head_cons, Matrix.tail_cons]
  unfold len02 norm3
  rw [hd, show (4 : ℝ) = 2 ^ 2 by norm_num, Real.sqrt_sq (by norm_num)]

theorem len01_pDeg : len01 pDeg f012 = 1 := by
  have hd : dot3 (pDeg f012.1 - pDeg f012.2.1) (pDeg f012.1 - pDeg f012.2.1)
      = 1 := by
    norm_num [pDeg, f012, dot3, Matrix.cons_val_zero, Matrix.cons_val_one,
      Matrix.head_cons]
  unfold len01 norm3
  rw [hd, Real.sqrt_one]

theorem heronRadicand_pDeg : heronRadicand pDeg f012 = 0 := by
  unfold heronRadicand halfPerimeter
  rw [len12_pDeg, len02_pDeg, len01_pDeg]
  norm_num

theorem triangleArea_pDeg : triangleArea pDeg f012 = 1 / 1000 := by
  unfold triangleArea
  rw [heronRadicand_pDeg,
    max_eq_right (by norm_num : (0 : ℝ) ≤ 1 / 1000000), sqrt_millionth]

/-- C2 (counterexample to the claim as stated): at a truly degenerate
zero-area triangle the Heron radicand is 0, yet the area divisor of the
cotangent weights is the floored value 1/1000, not 0, and the resulting
cotangent weight is the finite value 2000 - no division by a vanishing
area occurs. -/
theorem laplacian_degenerate_finite :
    heronRadicand pDeg f012 = 0 ∧ triangleArea pDeg f012 ≠ 0 ∧
      cot12 pDeg f012 = 2000 := by
  refine ⟨heronRadicand_pDeg, by rw [triangleArea_pDeg]; norm_num, ?_⟩
  unfold cot12
  rw [len12_pDeg, len02_pDeg, len01_pDeg, triangleArea_pDeg]
  norm_num

theorem sqrt_four : Real.sqrt 4 = 2 := by
  rw [show (4 : ℝ) = 2 ^ 2 by norm_num, Real.sqrt_sq (by norm_num)]

/-- face_areas equals twice the square root of the unclipped Heron radicand. -/
theorem faceArea_eq_two_sqrt_rad {n : ℕ} (p : Fin n → V3) (f : Face n) :
    faceArea p f = 2 * Real.sqrt (heronRadicand p f) := by
  unfold faceArea
  rw [gram_det_eq_four_radicand, Real.sqrt_mul (by norm_num : (0 : ℝ) ≤ 4),
    sqrt_four]

/-- When the Heron radicand is at least the 1e-6 clip floor,
_triangle_areas returns the square root of the unclipped radicand. -/
theorem triangleArea_no_clip {n : ℕ} (p : Fin n → V3) (f : Face n)
    (h : 1 / 1000000 ≤ heronRadicand p f) :
    triangleArea p f = Real.sqrt (heronRadicand p f) := by
  unfold triangleArea
  rw [max_eq_left h]

/-- face_areas equals exactly twice _triangle_areas away from the clip. -/
theorem faceArea_eq_two_triangleArea {n : ℕ} (p : Fin n → V3) (f : Face n)
    (h : 1 / 1000000 ≤ heronRadicand p f) :
    faceArea p f = 2 * triangleArea p f := by
  rw [faceArea_eq_two_sqrt_rad, triangleArea_no_clip p f h]

/-- The magnitude of the unnormalized per-face normal equals the square
root of the unclipped Heron radicand. -/
theorem norm_normalsF_eq_sqrt_rad {n : ℕ} (p : Fin n → V3) (f : Face n) :
    norm3 (normalsF p f) = Real.sqrt (heronRadicand p f) := by
  unfold normalsF norm3
  rw [dot3_smul_smul, dot3_cross_self]
  have hdet := gram_det p f
  have h4 := gram_det_eq_four_radicand p f
  have key : (0.5 : ℝ) ^ 2
      * (dot3 (p f.2.1 - p f.1) (p f.2.1 - p f.1)
          * dot3 (p f.2.2 - p f.1) (p f.2.2 - p f.1)
        - dot3 (p f.2.1 - p f.1) (p f.2.2 - p f.1)
          * dot3 (p f.2.1 - p f.1) (p f.2.2 - p f.1))
      = heronRadicand p f := by
    rw [← hdet] at *
    nlinarith [h4]
  rw [key]

/-- The unit right triangle: a single nondegenerate face. -/
def p0 : Fin 3 → V3 := ![⟨0, 0, 0⟩, ⟨1, 0, 0⟩, ⟨0, 1, 0⟩]

theorem gram_det_p0 : (gram p0 f012).det = 1 := by
  rw [gram_det]
  norm_num [p0, f012, dot3, Matrix.cons_val_zero, Matrix.cons_val_one,
    Matrix.cons_val_two, Matrix.head_cons, Matrix.tail_cons]

theorem rad_p0 : heronRadicand p0 f012 = 1 / 4 := by
  have h := gram_det_eq_four_radicand p0 f012
  rw [gram_det_p0] at h
  linarith

theorem faceArea_p0 : faceArea p0 f012 = 1 := by
  unfold faceArea
  rw [gram_det_p0, Real.sqrt_one]

theorem triangleArea_p0 : triangleArea p0 f012 = 1 / 2 := by
  unfold triangleArea
  rw [rad_p0, max_eq_left (by norm_num),
    show (1 / 4 : ℝ) = (1 / 2) ^ 2 by norm_num, Real.sqrt_sq (by norm_num)]

/-- C3 (counterexample to the claim as stated): on the unit right triangle
face_areas gives 1 while the Heron-formula _triangle_areas gives 1/2, so
the two area computations do not agree: the metric-form area is twice the
Heron area. -/
theorem face_area_formulas_differ :
    faceArea p0 f012 = 1 ∧ triangleArea p0 f012 = 1 / 2 ∧
      faceArea p0 f012 ≠ triangleArea p0 f012 := by
  refine ⟨faceArea_p0, triangleArea_p0, ?_⟩
  rw [faceArea_p0, triangleArea_p0]
  norm_num

/-- C3 (amended): for every surface point and every face whose Heron
radicand is at least the 1e-6 clip floor, the face area computed by
face_areas as sqrt(det(metric matrix)) equals exactly TWICE the
Heron-formula area computed by _triangle_areas. -/
theorem face_area_eq_twice_heron {n : ℕ} (p : Fin n → V3) (f : Face n)
    (h : 1 / 1000000 ≤ heronRadicand p f) :
    faceArea p f = 2 * triangleArea p f :=
  faceArea_eq_two_triangleArea p f h

theorem face_area_eq_twice_heron_witness :
    1 / 1000000 ≤ heronRadicand p0 f012 ∧
      faceArea p0 f012 = 2 * triangleArea p0 f012 :=
  ⟨by rw [rad_p0]; norm_num,
    face_area_eq_twice_heron p0 f012 (by rw [rad_p0]; norm_num)⟩

/-- C7 (counterexample to the claim as stated): on the unit right triangle
the magnitude of the unnormalized normal is 1/2, while 2 times the face's
Heron area is 1: the magnitude equals the area itself, not twice it. -/
theorem normal_magnitude_not_twice_area :
    norm3 (normalsF p0 f012) ≠ 2 * triangleArea p0 f012 := by
  rw [norm_normalsF_eq_sqrt_rad, rad_p0, triangleArea_p0,
    show (1 / 4 : ℝ) = (1 / 2) ^ 2 by norm_num, Real.sqrt_sq (by norm_num)]
  norm_num

/-- C7 (amended): normals returns half the cross product of the two edge
vectors, and away from the clip floor the magnitude of this unnormalized
normal equals the face's Heron-formula area itself (equivalently, half of
the metric-form face area), not twice the area. -/
theorem normals_half_cross_magnitude {n : ℕ} (p : Fin n → V3) (f : Face n)
    (h : 1 / 1000000 ≤ heronRadicand p f) :
    normalsF p f = (0.5 : ℝ) • cross3 (p f.2.1 - p f.1) (p f.2.2 - p f.1) ∧
      norm3 (normalsF p f) = triangleArea p f := by
  refine ⟨rfl, ?_⟩
  rw [norm_normalsF_eq_sqrt_rad, triangleArea_no_clip p f h]

theorem normals_half_cross_magnitude_witness :
    1 / 1000000 ≤ heronRadicand p0 f012 ∧
      norm3 (normalsF p0 f012) = triangleArea p0 f012 :=
  ⟨by rw [rad_p0]; norm_num,
    (normals_half_cross_magnitude p0 f012 (by rw [rad_p0]; norm_num)).2⟩

/-- Scatter-add conserves total mass: the sum of the output equals the sum
of the initial accumulator plus the sum of all scattered values. -/
theorem sum_scatterAddR {n : ℕ} (init : Fin n → ℝ) (l : List (Fin n × ℝ)) :
    (Finset.univ.sum fun v => scatterAddR init l v)
      = (Finset.univ.sum fun v => init v) + (l.map Prod.snd).sum := by
  induction l generalizing init with
  | nil => simp [scatterAddR]
  | cons a t ih =>
    show (Finset.univ.sum fun v =>
        scatterAddR (Function.update init a.1 (init a.1 + a.2)) t v) = _
    rw [ih]
    have hu : (Finset.univ.sum fun v =>
          Function.update init a.1 (init a.1 + a.2) v)
        = (Finset.univ.sum fun v => init v) + a.2 := by
      rw [Finset.sum_update_of_mem (Finset.mem_univ a.1)]
      have he : (Finset.univ : Finset (Fin n)) \ {a.1}
          = (Finset.univ : Finset (Fin n)).erase a.1 := by
        rw [Finset.sdiff_singleton_eq_erase]
      rw [he]
      have h2 := Finset.add_sum_erase Finset.univ init (Finset.mem_univ a.1)
      linarith
    rw [hu]
    simp only [List.map_cons, List.sum_cons]
    ring

theorem length_flattenFaces {n : ℕ} (faces : List (Face n)) :
    (flattenFaces faces).length = 3 * faces.length := by
  induction faces with
  | nil => rfl
  | cons f t ih =>
    simp only [flattenFaces, List.flatMap_cons] at ih ⊢
    simp only [List.length_append, List.length_cons, List.length_nil, ih]
    omega

/-- The sum of all vertex areas equals twice the sum of the (clipped)
Heron triangle areas of all faces. -/
theorem sum_vertexAreas {n : ℕ} (faces : List (Face n)) (p : Fin n → V3) :
    (Finset.univ.sum fun v => vertexAreas faces p v)
      = 2 * (faces.map (triangleArea p)).sum := by
  unfold vertexAreas
  have hc : ∀ v : Fin n,
      2 * scatterAddR (fun _ => 0)
          ((flattenFaces faces).zip
            (faces.map (triangleArea p) ++ faces.map (triangleArea p)
              ++ faces.map (triangleArea p))) v / 3
        = (2 / 3) * scatterAddR (fun _ => 0)
          ((flattenFaces faces).zip
            (faces.map (triangleArea p) ++ faces.map (triangleArea p)
              ++ faces.map (triangleArea p))) v := fun v => by ring
  rw [Finset.sum_congr rfl fun v _ => hc v, ← Finset.mul_sum, sum_scatterAddR]
  rw [List.map_snd_zip]
  · simp only [Finset.sum_const_zero, zero_add, List.sum_append]
    ring
  · simp only [List.length_append, List.length_map, length_flattenFaces]
    omega

/-- C4 (counterexample to the claim as stated): for the unit right
triangle the sum of vertex_areas is 1 while 2 times the sum of face_areas
is 2 - the claimed factor of 2 does not hold against face_areas. -/
theorem vertex_area_sum_counterexample :
    (Finset.univ.sum fun v => vertexAreas [f012] p0 v)
      ≠ 2 * (([f012].map (faceArea p0)).sum) := by
  rw [sum_vertexAreas]
  simp only [List.map_cons, List.map_nil, List.sum_cons, List.sum_nil,
    triangleArea_p0, faceArea_p0]
  norm_num

/-- C4 (amended): for every surface point all of whose faces are above the
1e-6 clip floor, the sum over all vertices of vertex_areas equals the sum
over all faces of face_areas (equivalently 2 times the sum of the
Heron-formula triangle areas); it is not 2 times the sum of face_areas,
because face_areas is itself twice the Heron area. -/
theorem vertex_area_conservation {n : ℕ} (faces : List (Face n))
    (p : Fin n → V3) (h : ∀ f ∈ faces, 1 / 1000000 ≤ heronRadicand p f) :
    (Finset.univ.sum fun v => vertexAreas faces p v)
      = (faces.map (faceArea p)).sum := by
  rw [sum_vertexAreas]
  have hm : faces.map (faceArea p)
      = faces.map fun f => 2 * triangleArea p f :=
    List.map_congr_left fun f hf => faceArea_eq_two_triangleArea p f (h f hf)
  rw [hm, List.sum_map_mul_left]

theorem vertex_area_conservation_witness :
    (∀ f ∈ [f012], 1 / 1000000 ≤ heronRadicand p0 f) ∧
      (Finset.univ.sum fun v => vertexAreas [f012] p0 v)
        = (([f012].map (faceArea p0)).sum) := by
  have hp : ∀ f ∈ [f012], 1 / 1000000 ≤ heronRadicand p0 f := by
    intro f hf
    rw [List.mem_singleton] at hf
    rw [hf, rad_p0]
    norm_num
  exact ⟨hp, vertex_area_conservation [f012] p0 hp⟩

/-- C6: with only a0 nonzero, inner_product is the a0-weighted L2 inner
product of the displacement fields against the vertex areas; in
particular, for a0 = 1 and h = k the constant field (1,0,0) the result is
the sum of all vertex areas. -/
theorem inner_product_a0_only {n : ℕ} (faces : List (Face n)) (a0 : ℝ)
    (h k q : Fin n → V3) (ha : 0 ≤ a0) :
    innerProduct faces ⟨a0, 0, 0, 0, 0, 0⟩ h k q
        = a0 * Finset.univ.sum (fun v => vertexAreas faces q v * dot3 (h v) (k v))
      ∧ innerProduct faces ⟨1, 0, 0, 0, 0, 0⟩ (fun _ => V3.mk 1 0 0)
          (fun _ => V3.mk 1 0 0) q
        = Finset.univ.sum fun v => vertexAreas faces q v := by
  constructor
  · unfold innerProduct
    simp only [lt_self_iff_false, false_or, or_false, or_self, if_false]
    rcases eq_or_lt_of_le ha with h0 | h0
    · rw [if_neg (by rw [← h0]; exact lt_irrefl 0), ← h0, zero_mul]
      norm_num
    · rw [if_pos h0, if_pos h0]
      unfold termA0
      ring
  · unfold innerProduct
    simp only [lt_self_iff_false, false_or, or_false, or_self, if_false,
      zero_lt_one, if_true, if_pos]
    rw [add_zero, add_zero, one_mul]
    unfold termA0
    refine Finset.sum_congr rfl fun v _ => ?_
    simp [dot3]

theorem inner_product_a0_only_witness :
    (0 : ℝ) ≤ 1 ∧
      innerProduct [f012] ⟨1, 0, 0, 0, 0, 0⟩ (fun _ => V3.mk 1 0 0)
          (fun _ => V3.mk 1 0 0) p0
        = Finset.univ.sum fun v => vertexAreas [f012] p0 v :=
  ⟨by norm_num,
    (inner_product_a0_only [f012] 1 (fun _ => V3.mk 1 0 0)
      (fun _ => V3.mk 1 0 0) p0 (by norm_num)).2⟩

theorem update_smul {n : ℕ} (c : ℝ) (g : Fin n → V3) (i : Fin n) (b : V3) :
    Function.update (fun v => c • g v) i (c • b)
      = fun v => c • Function.update g i b v := by
  funext v
  by_cases hv : v = i
  · subst hv; simp
  · simp [Function.update_noteq hv]

theorem smul_add_dist3 (c : ℝ) (u v : V3) : c • (u + v) = c • u + c • v := by
  apply V3.ext_comp <;> simp <;> ring

theorem scatterAddV_smul {n : ℕ} (c : ℝ) (l : List (Fin n × V3))
    (init : Fin n → V3) :
    scatterAddV (fun v => c • init v) (l.map fun pr => (pr.1, c • pr.2))
      = fun v => c • scatterAddV init l v := by
  induction l generalizing init with
  | nil => rfl
  | cons a t ih =>
    show scatterAddV
        (Function.update (fun v => c • init v) a.1 (c • init a.1 + c • a.2))
        (t.map fun pr => (pr.1, c • pr.2)) = _
    rw [← smul_add_dist3, update_smul,
      ih (Function.update init a.1 (init a.1 + a.2))]
    rfl

theorem smul_pair_diff (a c : ℝ) (u v : V3) :
    a • (c • u - c • v) = c • (a • (u - v)) := by
  apply V3.ext_comp <;> simp <;> ring

theorem lapPairs_smul {n : ℕ} (faces : List (Face n)) (q : Fin n → V3)
    (c : ℝ) (t : Fin n → V3) :
    lapPairs faces q (c • t)
      = (lapPairs faces q t).map fun pr => (pr.1, c • pr.2) := by
  unfold lapPairs
  rw [List.map_flatMap]
  have he : (fun f : Face n =>
        [ (f.2.2, cot12 q f • ((c • t) f.2.1 - (c • t) f.2.2)),
          (f.1, cot02 q f • ((c • t) f.2.2 - (c • t) f.1)),
          (f.2.1, cot01 q f • ((c • t) f.1 - (c • t) f.2.1)) ])
      = fun f : Face n =>
        ([ (f.2.2, cot12 q f • (t f.2.1 - t f.2.2)),
           (f.1, cot02 q f • (t f.2.2 - t f.1)),
           (f.2.1, cot01 q f • (t f.1 - t f.2.1)) ].map
          fun pr => (pr.1, c • pr.2)) := by
    funext f
    simp only [List.map_cons, List.map_nil, Pi.smul_apply, smul_pair_diff]
  rw [he]

theorem laplacianApply_smul {n : ℕ} (faces : List (Face n)) (q : Fin n → V3)
    (c : ℝ) (t : Fin n → V3) :
    laplacianApply faces q (c • t) = fun v => c • laplacianApply faces q t v := by
  unfold laplacianApply
  rw [lapPairs_smul]
  have h0 : (fun _ : Fin n => (0 : V3)) = fun v : Fin n => c • (0 : V3) := by
    funext v; rw [smul_zero3]
  conv_lhs => rw [h0]
  exact scatterAddV_smul c (lapPairs faces q t) fun _ => 0

theorem termA0_smul {n : ℕ} (faces : List (Face n)) (c : ℝ)
    (h q : Fin n → V3) :
    termA0 faces (c • h) (c • h) q = c ^ 2 * termA0 faces h h q := by
  unfold termA0
  rw [Finset.mul_sum]
  exact Finset.sum_congr rfl fun v _ => by
    rw [show (c • h) v = c • h v from rfl, dot3_smul_smul]; ring

theorem termA2_smul {n : ℕ} (faces : List (Face n)) (c : ℝ)
    (h q : Fin n → V3) :
    termA2 faces (c • h) (c • h) q = c ^ 2 * termA2 faces h h q := by
  unfold termA2
  rw [laplacianApply_smul, Finset.mul_sum]
  refine Finset.sum_congr rfl fun v _ => ?_
  dsimp only
  rw [dot3_smul_smul]
  ring

/-- C8: with the four first-order weights zero (in particular with only a0
or only a2 nonzero), scaling the tangent vector by any scalar c scales the
inner product by exactly c squared. -/
theorem inner_product_quadratic_scaling {n : ℕ} (faces : List (Face n))
    (W : Weights) (c : ℝ) (h q : Fin n → V3) (h1 : W.a1 = 0) (h2 : W.b1 = 0)
    (h3 : W.c1 = 0) (h4 : W.d1 = 0) :
    innerProduct faces W (c • h) (c • h) q
      = c ^ 2 * innerProduct faces W h h q := by
  unfold innerProduct
  rw [h1, h2, h3, h4]
  simp only [lt_self_iff_false, false_or, or_false, or_self, if_false]
  rw [termA0_smul, termA2_smul]
  split_ifs <;> ring

theorem inner_product_quadratic_scaling_witness :
    (Weights.mk 1 0 0 0 0 0).a1 = 0 ∧ (Weights.mk 1 0 0 0 0 0).b1 = 0 ∧
      (Weights.mk 1 0 0 0 0 0).c1 = 0 ∧ (Weights.mk 1 0 0 0 0 0).d1 = 0 ∧
      innerProduct [f012] ⟨1, 0, 0, 0, 0, 0⟩
          ((2 : ℝ) • fun _ => V3.mk 1 0 0) ((2 : ℝ) • fun _ => V3.mk 1 0 0) p0
        = 2 ^ 2 * innerProduct [f012] ⟨1, 0, 0, 0, 0, 0⟩
            (fun _ => V3.mk 1 0 0) (fun _ => V3.mk 1 0 0) p0 :=
  ⟨rfl, rfl, rfl, rfl,
    inner_product_quadratic_scaling [f012] ⟨1, 0, 0, 0, 0, 0⟩ 2
      (fun _ => V3.mk 1 0 0) p0 rfl rfl rfl rfl⟩

/-- A tangent field moving only vertex 1, in the y direction. -/
def h010 : Fin 3 → V3 := ![⟨0, 0, 0⟩, ⟨0, 1, 0⟩, ⟨0, 0, 0⟩]

theorem oneForms_p0 : oneForms p0 f012 = !![1, 0, 0; 0, 1, 0] := by
  ext i j
  fin_cases i <;> fin_cases j <;>
    norm_num [oneForms, vComp, p0, f012, Matrix.cons_val_zero,
      Matrix.cons_val_one, Matrix.cons_val_two, Matrix.head_cons,
      Matrix.tail_cons]

theorem oneForms_p0_h010 : oneForms (p0 + h010) f012 = !![1, 1, 0; 0, 1, 0] := by
  ext i j
  fin_cases i <;> fin_cases j <;>
    norm_num [oneForms, vComp, p0, h010, f012, Pi.add_apply,
      Matrix.cons_val_zero, Matrix.cons_val_one, Matrix.cons_val_two,
      Matrix.head_cons, Matrix.tail_cons]

theorem gram_p0 : gram p0 f012 = 1 := by
  ext i k
  rw [gram_apply]
  fin_cases i <;> fin_cases k <;>
    norm_num [p0, f012, dot3, Matrix.one_apply, Matrix.cons_val_zero,
      Matrix.cons_val_one, Matrix.cons_val_two, Matrix.head_cons,
      Matrix.tail_cons]

theorem inv2_one : inv2 (1 : Matrix (Fin 2) (Fin 2) ℝ) = 1 := by
  ext i j
  fin_cases i <;> fin_cases j <;>
    norm_num [inv2, Matrix.det_one, Matrix.one_apply]

theorem inv2_gram_p0 : inv2 (gram p0 f012) = 1 := by
  rw [gram_p0, inv2_one]

theorem transpose_lit23 :
    (!![(1 : ℝ), 1, 0; 0, 1, 0])ᵀ = !![1, 0; 1, 1; 0, 0] := by
  ext i j
  fin_cases i <;> fin_cases j <;>
    simp only [Matrix.transpose_apply] <;> norm_num

theorem transpose_lit23A :
    (!![(1 : ℝ), 0, 0; 0, 1, 0])ᵀ = !![1, 0; 0, 1; 0, 0] := by
  ext i j
  fin_cases i <;> fin_cases j <;>
    simp only [Matrix.transpose_apply] <;> norm_num

theorem dgFace_p0 : dgFace p0 h010 f012 = !![1, 1; 1, 0] := by
  unfold dgFace
  rw [oneForms_p0_h010, show gram p0 f012 = 1 from gram_p0, transpose_lit23]
  ext i j
  fin_cases i <;> fin_cases j <;>
    norm_num [Matrix.mul_apply, Matrix.sub_apply,
      Matrix.one_apply, Fin.sum_univ_three]

theorem ginvdg_p0 : ginvdg p0 h010 f012 = !![1, 1; 1, 0] := by
  unfold ginvdg
  rw [inv2_gram_p0, dgFace_p0, one_mul]

theorem termA1_eval : termA1 [f012] h010 h010 p0 = 3 := by
  unfold termA1
  simp only [List.map_cons, List.map_nil, List.sum_cons, List.sum_nil, add_zero]
  rw [ginvdg_p0, faceArea_p0, mul_one]
  norm_num [Matrix.trace_fin_two, Matrix.mul_apply, Fin.sum_univ_two]

theorem termB1_eval : termB1 [f012] h010 h010 p0 = 1 := by
  unfold termB1
  simp only [List.map_cons, List.map_nil, List.sum_cons, List.sum_nil, add_zero]
  rw [ginvdg_p0, faceArea_p0, mul_one]
  norm_num [Matrix.trace_fin_two]

theorem xi_lit :
    (!![(1 : ℝ), 1, 0; 0, 1, 0])ᵀ - (!![(1 : ℝ), 0, 0; 0, 1, 0])ᵀ
      = !![0, 0; 1, 0; 0, 0] := by
  rw [transpose_lit23, transpose_lit23A]
  ext i j
  fin_cases i <;> fin_cases j <;> norm_num [Matrix.sub_apply]

theorem transpose_lit32 :
    (!![(0 : ℝ), 0; 1, 0; 0, 0])ᵀ = !![0, 1, 0; 0, 0, 0] := by
  ext i j
  fin_cases i <;> fin_cases j <;>
    simp only [Matrix.transpose_apply] <;> norm_num

theorem xiZero_eval :
    xiZero !![1, 0, 0; 0, 1, 0] 1 !![1, 1, 0; 0, 1, 0]
      = !![0, 1; -1, 0; 0, 0] := by
  unfold xiZero
  rw [xi_lit, transpose_lit23A, transpose_lit32, Matrix.mul_one]
  ext i j
  fin_cases i <;> fin_cases j <;>
    norm_num [Matrix.mul_apply, Matrix.sub_apply, Fin.sum_univ_two,
      Fin.sum_univ_three]

theorem transpose_lit32X :
    (!![(0 : ℝ), 1; -1, 0; 0, 0])ᵀ = !![0, -1, 0; 1, 0, 0] := by
  ext i j
  fin_cases i <;> fin_cases j <;>
    simp only [Matrix.transpose_apply] <;> norm_num

theorem d1Face_eval : d1Face p0 h010 h010 f012 = 2 := by
  unfold d1Face
  rw [oneForms_p0, oneForms_p0_h010, inv2_gram_p0, xiZero_eval,
    transpose_lit32X, Matrix.one_mul]
  simp only [Matrix.trace, Matrix.diag, Fin.sum_univ_three, Matrix.mul_apply,
    Fin.sum_univ_two, Matrix.cons_val_zero, Matrix.cons_val_one,
    Matrix.cons_val_two, Matrix.head_cons, Matrix.tail_cons, Matrix.of_apply,
    Matrix.cons_val', Matrix.head_fin_const, Matrix.empty_val']
  norm_num

theorem termD1_eval : termD1 [f012] h010 h010 p0 = 2 := by
  unfold termD1
  simp only [List.map_cons, List.map_nil, List.sum_cons, List.sum_nil, add_zero]
  rw [d1Face_eval, faceArea_p0]
  norm_num

/-- C1 (code evidence): with d1 = 1 and the five other weights 0,
inner_product returns the scalar 0 - the guard of the first-order block
tests b1 twice and never d1, so the connection/torsion term is skipped -
even though the d1 term itself evaluates to the nonzero value 2 on this
input. -/
theorem d1_weight_ignored :
    innerProduct [f012] ⟨0, 0, 0, 0, 1, 0⟩ h010 h010 p0 = 0 ∧
      termD1 [f012] h010 h010 p0 = 2 := by
  constructor
  · unfold innerProduct
    norm_num
  · exact termD1_eval

/-- C10 (amended): a nonpositive weight is gated off for a0, c1, d1 and a2
individually; for a1 and b1 this holds only when the other weight of the
pair is also nonpositive, because inside their shared guard both the a1
and the b1 term are added without individual guards; with all six weights
nonpositive the result is exactly the scalar 0. -/
theorem nonpositive_weight_gating {n : ℕ} (faces : List (Face n))
    (W : Weights) (h k q : Fin n → V3) :
    (W.a0 ≤ 0 → innerProduct faces W h k q
        = innerProduct faces ⟨0, W.a1, W.b1, W.c1, W.d1, W.a2⟩ h k q) ∧
    (W.c1 ≤ 0 → innerProduct faces W h k q
        = innerProduct faces ⟨W.a0, W.a1, W.b1, 0, W.d1, W.a2⟩ h k q) ∧
    (W.d1 ≤ 0 → innerProduct faces W h k q
        = innerProduct faces ⟨W.a0, W.a1, W.b1, W.c1, 0, W.a2⟩ h k q) ∧
    (W.a2 ≤ 0 → innerProduct faces W h k q
        = innerProduct faces ⟨W.a0, W.a1, W.b1, W.c1, W.d1, 0⟩ h k q) ∧
    (W.a1 ≤ 0 → W.b1 ≤ 0 → innerProduct faces W h k q
        = innerProduct faces ⟨W.a0, 0, W.b1, W.c1, W.d1, W.a2⟩ h k q) ∧
    (W.b1 ≤ 0 → W.a1 ≤ 0 → innerProduct faces W h k q
        = innerProduct faces ⟨W.a0, W.a1, 0, W.c1, W.d1, W.a2⟩ h k q) ∧
    (W.a0 ≤ 0 → W.a1 ≤ 0 → W.b1 ≤ 0 → W.c1 ≤ 0 → W.d1 ≤ 0 → W.a2 ≤ 0 →
      innerProduct faces W h k q = 0) := by
  refine ⟨?_, ?_, ?_, ?_, ?_, ?_, ?_⟩
  · intro h0
    simp [innerProduct, not_lt.2 h0, lt_self_iff_false]
  · intro h0
    simp [innerProduct, not_lt.2 h0, lt_self_iff_false]
  · intro h0
    simp [innerProduct, not_lt.2 h0, lt_self_iff_false]
  · intro h0
    simp [innerProduct, not_lt.2 h0, lt_self_iff_false]
  · intro h0 h1
    simp [innerProduct, not_lt.2 h0, not_lt.2 h1, lt_self_iff_false]
  · intro h0 h1
    simp [innerProduct, not_lt.2 h0, not_lt.2 h1, lt_self_iff_false]
  · intro h0 h1 h2 h3 h4 h5
    simp [innerProduct, not_lt.2 h0, not_lt.2 h1, not_lt.2 h2, not_lt.2 h3,
      not_lt.2 h4, not_lt.2 h5]

theorem nonpositive_weight_gating_witness :
    (0 : ℝ) ≤ 0 ∧ innerProduct [f012] ⟨0, 0, 0, 0, 0, 0⟩ h010 h010 p0 = 0 :=
  ⟨le_refl 0,
    (nonpositive_weight_gating [f012] ⟨0, 0, 0, 0, 0, 0⟩ h010 h010 p0).2.2.2.2.2.2
      (le_refl 0) (le_refl 0) (le_refl 0) (le_refl 0) (le_refl 0) (le_refl 0)⟩

/-- C10 (counterexample to the claim as stated): setting a1 to the
negative value -1 while b1 = 1 does NOT give the same result as setting
a1 to 0: the shared a1/b1 guard is entered because b1 is positive, and the
negative a1 then multiplies its trace term, giving -2 versus 1. -/
theorem negative_a1_not_gated :
    innerProduct [f012] ⟨0, -1, 1, 0, 0, 0⟩ h010 h010 p0 = -2 ∧
      innerProduct [f012] ⟨0, 0, 1, 0, 0, 0⟩ h010 h010 p0 = 1 ∧
      innerProduct [f012] ⟨0, -1, 1, 0, 0, 0⟩ h010 h010 p0
        ≠ innerProduct [f012] ⟨0, 0, 1, 0, 0, 0⟩ h010 h010 p0 := by
  have e1 : innerProduct [f012] ⟨0, -1, 1, 0, 0, 0⟩ h010 h010 p0
      = -1 * termA1 [f012] h010 h010 p0 + 1 * termB1 [f012] h010 h010 p0 := by
    norm_num [innerProduct]
  have e2 : innerProduct [f012] ⟨0, 0, 1, 0, 0, 0⟩ h010 h010 p0
      = 0 * termA1 [f012] h010 h010 p0 + 1 * termB1 [f012] h010 h010 p0 := by
    norm_num [innerProduct]
  rw [e1, e2, termA1_eval, termB1_eval]
  norm_num

end
